/-
  Verification of the sprite-composition core of vite-plugin-heroicons
  (src/index.js) against its natural-language specification.

  Shallow embedding notes:
  * JS `Map` is modelled as an insertion-ordered association list
    `List (String × α)` with `mapGet` / `mapSet` / `mapDelete` mirroring
    `Map.get` / `Map.set` / `Map.delete`.
  * JS `Set` is modelled as a `List String`; real JS sets are duplicate-free,
    which theorems assume via `Nodup` hypotheses where it matters.
  * The filesystem is an oracle `FS : String → Option String`
    (path ↦ file contents); `fs.readFile` failures are `none`.
  * The plugin's `ctx.warn` sink is modelled as an instrumentation list
    `warnings` of (iconId, message) pairs — every `ctx.warn` call in the
    source goes through `warnOnce` which receives the iconId.
  * Every `fs.readFile` attempt is recorded in the instrumentation list
    `reads` (the icon path), so I/O-count claims are statable.
  * `async`/`Promise.all` are sequentialised; `loadSymbol` is split into its
    synchronous prelude (`loadSymbolStart`, everything up to and including
    issuing the read) and its post-`await` continuation (`loadSymbolFinish`),
    which also gives an interleaving model for the concurrency claims.
-/
import Mathlib

namespace Heroicons

abbrev IconId := String

/-- Filesystem oracle: absolute path ↦ file contents (`none` = read fails). -/
abbrev FS := String → Option String

/-- `EMPTY_SPRITE` from src/index.js line 27. -/
structure Sprite where
  full : String
  inner : String
deriving DecidableEq, Repr

def EMPTY_SPRITE : Sprite := { full := "", inner := "" }

/-! ### JS Map model (insertion-ordered association list) -/

def mapGet {α : Type} (m : List (String × α)) (k : String) : Option α :=
  (m.find? (fun e => e.1 == k)).map (fun e => e.2)

def mapSet {α : Type} (m : List (String × α)) (k : String) (v : α) :
    List (String × α) :=
  if (m.find? (fun e => e.1 == k)).isSome then
    m.map (fun e => if e.1 == k then (k, v) else e)
  else m ++ [(k, v)]

def mapDelete {α : Type} (m : List (String × α)) (k : String) :
    List (String × α) :=
  m.filter (fun e => !(e.1 == k))

/-! ### `escapeAttributeValue` (line 30)
`value.replaceAll('&','&amp;').replaceAll('"','&quot;')`; for a single-char
search string JS `replaceAll` rewrites each occurrence of that character. -/

def replaceAllChar (target : Char) (repl : List Char) : List Char → List Char
  | [] => []
  | c :: cs => (if c = target then repl else [c]) ++ replaceAllChar target repl cs

def escapeAttributeValue (s : String) : String :=
  ⟨replaceAllChar '"' "&quot;".data (replaceAllChar '&' "&amp;".data s.data)⟩

/-! ### `sameSet` (lines 45–51).
`left` is the possibly-undefined previously stored set, `right` the new set
(always defined at the call site). -/

def sameSet (left : Option (List IconId)) (right : List IconId) : Bool :=
  match left with
  | none => false
  | some l => l.length == right.length && l.all (fun v => right.contains v)

/-! ### Plugin state (lines 107–116) plus instrumentation -/

structure PluginState where
  refsByFile : List (String × List IconId)
  refCountById : List (IconId × Nat)
  symbolById : List (IconId × String)
  warnedIds : List IconId
  iconDirs : List (String × String)
  spriteDirty : Bool
  sprite : Sprite
  /-- instrumentation: every `ctx.warn` call, tagged with the iconId passed
  to `warnOnce` -/
  warnings : List (IconId × String)
  /-- instrumentation: every `fs.readFile` attempt (the icon path) -/
  reads : List String
deriving Repr

/-- State after `configResolved` + `buildStart` (`resetBuildState`,
lines 124–131): all generation-scoped containers empty, sprite dirty. -/
def initState (iconDirs : List (String × String)) : PluginState :=
  { refsByFile := [], refCountById := [], symbolById := [], warnedIds := [],
    iconDirs := iconDirs, spriteDirty := true, sprite := EMPTY_SPRITE,
    warnings := [], reads := [] }

/-- `setEmptySprite` (lines 118–122). -/
def setEmptySprite (st : PluginState) : PluginState :=
  { st with sprite := EMPTY_SPRITE, spriteDirty := false }

/-- `updateRefCount` (lines 133–140). -/
def updateRefCountMap (m : List (IconId × Nat)) (iconId : IconId)
    (delta : Int) : List (IconId × Nat) :=
  let nextCount : Int := ((mapGet m iconId).getD 0 : Nat) + delta
  if nextCount ≤ 0 then mapDelete m iconId
  else mapSet m iconId nextCount.toNat

def decAll (m : List (IconId × Nat)) (l : List IconId) : List (IconId × Nat) :=
  l.foldl (fun m i => updateRefCountMap m i (-1)) m

def incAll (m : List (IconId × Nat)) (l : List IconId) : List (IconId × Nat) :=
  l.foldl (fun m i => updateRefCountMap m i 1) m

/-- `replaceFileRefs` (lines 142–160). -/
def replaceFileRefs (st : PluginState) (fileKey : String)
    (nextIds : List IconId) : PluginState :=
  let previousIds := mapGet st.refsByFile fileKey
  if previousIds.isNone ∧ nextIds = [] then st
  else if sameSet previousIds nextIds = true then st
  else
    let rc1 :=
      match previousIds with
      | some prev => decAll st.refCountById prev
      | none => st.refCountById
    if nextIds = [] then
      { st with refsByFile := mapDelete st.refsByFile fileKey,
                refCountById := rc1, spriteDirty := true }
    else
      { st with refsByFile := mapSet st.refsByFile fileKey nextIds,
                refCountById := incAll rc1 nextIds, spriteDirty := true }

/-- `warnOnce` (lines 168–172). -/
def warnOnce (st : PluginState) (iconId : IconId) (message : String) :
    PluginState :=
  if st.warnedIds.contains iconId then st
  else { st with warnedIds := st.warnedIds ++ [iconId],
                 warnings := st.warnings ++ [(iconId, message)] }

/-! ### Reference extractor (`buildHrefRegExp` lines 58–71,
`extractIconIds` lines 73–93)

The regex
`\b(?:xlink:)?href\s*=\s*(?:(["'])#(ID)\1|#(ID)(?=[\s>]))` with flags `gi`
and `ID = (?:p1|…|pn)\/[a-z0-9-]+` is hand-translated into a scanner with
the same backtracking semantics.  Because the `i` flag is set, literal
fragments and the name class match up to ASCII letter case (`ciCharEq`,
`isNameCharCI`).  The greedy `[a-z0-9-]+` never needs to backtrack: its
class is disjoint from every character the continuation can require
(a quote, whitespace or `>`), so take-while is exact.  Alternation over the
configured prefixes backtracks through the whole continuation, which
`tryPrefixes` implements by retrying the next alternative on any failure. -/

/-- regex word character `[A-Za-z0-9_]`, used by `\b`. -/
def isWordChar (c : Char) : Bool :=
  ('a' ≤ c && c ≤ 'z') || ('A' ≤ c && c ≤ 'Z') || ('0' ≤ c && c ≤ '9') || c = '_'

/-- model of regex `\s` (the ASCII whitespace characters plus NBSP; the
remaining Unicode space characters never occur in the inputs considered). -/
def isSpaceJS (c : Char) : Bool :=
  c = ' ' || c = '\t' || c = '\n' || c = '\r' || c = '\x0b' || c = '\x0c' ||
  c = ' '

/-- `[a-z0-9-]` under the `i` flag. -/
def isNameCharCI (c : Char) : Bool :=
  ('a' ≤ c && c ≤ 'z') || ('A' ≤ c && c ≤ 'Z') || ('0' ≤ c && c ≤ '9') ||
  c = '-'

/-- case-insensitive character comparison (the `i` flag; ASCII case fold). -/
def ciCharEq (a b : Char) : Bool := a.toLower == b.toLower

/-- Match a literal pattern case-insensitively at the head of `s`, returning
the consumed text (original case preserved) and the rest. -/
def ciStripPfx : List Char → List Char → Option (List Char × List Char)
  | [], s => some ([], s)
  | _ :: _, [] => none
  | p :: ps, c :: cs =>
    if ciCharEq p c then
      match ciStripPfx ps cs with
      | some pr => some (c :: pr.1, pr.2)
      | none => none
    else none

/-- `\/[a-z0-9-]+` followed by the closing test `close` (not consumed).
Returns the matched name and the rest starting at the close position. -/
def matchSlashName (s : List Char) (close : List Char → Bool) :
    Option (List Char × List Char) :=
  match s with
  | '/' :: rest =>
    let name := rest.takeWhile isNameCharCI
    if name.isEmpty then none
    else
      let after := rest.drop name.length
      if close after then some (name, after) else none
  | _ => none

/-- Alternation `(?:p1|…|pn)\/[a-z0-9-]+` with full backtracking through the
continuation: alternatives are tried in configuration order and the next one
is tried whenever the rest of the pattern fails.  Returns the matched icon-id
text and the rest at the close position. -/
def tryPrefixes (ps : List String) (s : List Char) (close : List Char → Bool) :
    Option (List Char × List Char) :=
  match ps with
  | [] => none
  | p :: rest =>
    match ciStripPfx p.data s with
    | some pr =>
      match matchSlashName pr.2 close with
      | some r => some (pr.1 ++ '/' :: r.1, r.2)
      | none => tryPrefixes rest s close
    | none => tryPrefixes rest s close

/-- `\b` fails when the previous character is a word character (the next
pattern character is always a word character here). -/
def boundaryBlocked (prev : Option Char) : Bool :=
  match prev with
  | some c => isWordChar c
  | none => false

/-- `(?:xlink:)?href\s*=\s*`: the optional `xlink:` is tried greedily; when
it fails the bare `href` is tried at the same position (the regex
backtracking collapses to exactly this because `x` never starts `href`). -/
def stripHrefEq (s : List Char) : Option (List Char) :=
  let afterHref : Option (List Char) :=
    match ciStripPfx "xlink:href".data s with
    | some pr => some pr.2
    | none =>
      match ciStripPfx "href".data s with
      | some pr => some pr.2
      | none => none
  match afterHref with
  | none => none
  | some r1 =>
    match r1.dropWhile isSpaceJS with
    | '=' :: r3 => some (r3.dropWhile isSpaceJS)
    | _ => none

/-- The value alternation `(?:(["'])#(ID)\1|#(ID)(?=[\s>]))`.  Returns the
icon-id text, the last consumed character (for resuming `\b` tracking), and
the rest after the whole match (`lastIndex`); the lookahead branch consumes
nothing beyond the id. -/
def matchAfterEq (ps : List String) (r4 : List Char) :
    Option (List Char × Char × List Char) :=
  match r4 with
  | [] => none
  | q :: r5 =>
    if q = '"' ∨ q = '\'' then
      match r5 with
      | '#' :: r6 =>
        match tryPrefixes ps r6 (fun a =>
            match a with | c :: _ => c == q | [] => false) with
        | some (id, after) =>
          match after with
          | qc :: rest => some (id, qc, rest)
          | [] => none
        | none => none
      | _ => none
    else if q = '#' then
      match tryPrefixes ps r5 (fun a =>
          match a with | c :: _ => isSpaceJS c || c == '>' | [] => false) with
      | some (id, after) => some (id, id.getLastD '#', after)
      | none => none
    else none

/-- One attempt of the whole href pattern at the current position. -/
def matchHrefAt (ps : List String) (prev : Option Char) (s : List Char) :
    Option (List Char × Char × List Char) :=
  if boundaryBlocked prev then none
  else
    match stripHrefEq s with
    | none => none
    | some r4 => matchAfterEq ps r4

/-- The `g`-flag exec loop: scan left to right, restart after each match at
`lastIndex`.  Fuel is the remaining input length (every step strictly
shortens the input). -/
def scanHref (ps : List String) : Nat → Option Char → List Char →
    List (List Char)
  | 0, _, _ => []
  | _ + 1, _, [] => []
  | fuel + 1, prev, c :: cs =>
    match matchHrefAt ps prev (c :: cs) with
    | some (id, lastC, rest) => id :: scanHref ps fuel (some lastC) rest
    | none => scanHref ps fuel (some c) cs

/-- JS `Set` insertion over the match loop: keep first occurrences. -/
def dedupKeepFirst (xs : List String) : List String :=
  xs.foldl (fun acc x => if acc.contains x then acc else acc ++ [x]) []

/-- `content.includes(needle)` on character lists. -/
def hasInfixOf (n : List Char) : List Char → Bool
  | [] => n.isEmpty
  | c :: t => n.isPrefixOf (c :: t) || hasInfixOf n t

/-- `containsAnyNeedle` (lines 38–43). -/
def containsAnyNeedle (content : List Char) (needles : List (List Char)) :
    Bool :=
  needles.any (fun nd => hasInfixOf nd content)

/-- `extractIconIds` (lines 73–93) with the plugin's prefix wiring (lines
102–104): `hrefRe` is `null` when no configured prefix is a nonempty string,
and the needles are `#<prefix>/` for every configured prefix. -/
def extractIconIds (content : String) (prefixes : List String) :
    List String :=
  let valid := prefixes.filter (fun p => !(p == ""))
  if valid.isEmpty then []
  else if content.length == 0 then []
  else if !(containsAnyNeedle content.data
      (prefixes.map (fun p => ("#" ++ p ++ "/").data))) then []
  else
    dedupKeepFirst ((scanHref valid content.data.length none
      content.data).map (fun l => (⟨l⟩ : String)))

/-! ### Symbol loader parsing (`SVG_RE` line 18, `VIEW_BOX_RE` line 19,
strip regexes lines 21–22, `parseViewBox` lines 53–56) -/

/-- Split at the first case-insensitive `</svg>`: body before, rest after. -/
def findCloseSvg : Nat → List Char → Option (List Char × List Char)
  | 0, _ => none
  | _ + 1, [] => none
  | fuel + 1, c :: t =>
    match ciStripPfx "</svg>".data (c :: t) with
    | some pr => some ([], pr.2)
    | none =>
      match findCloseSvg fuel t with
      | some r => some (c :: r.1, r.2)
      | none => none

/-- One attempt of `<svg\b([^>]*)>([\s\S]*?)<\/svg>` at this position. -/
def svgMatchAt (s : List Char) : Option (List Char × List Char) :=
  match ciStripPfx "<svg".data s with
  | none => none
  | some pr =>
    let r := pr.2
    if (match r with | c :: _ => isWordChar c | [] => false) then none
    else
      let attrs := r.takeWhile (fun c => !(c == '>'))
      match r.drop attrs.length with
      | '>' :: body0 =>
        match findCloseSvg body0.length body0 with
        | some br => some (attrs, br.1)
        | none => none
      | _ => none

/-- `source.match(SVG_RE)`: leftmost position where the pattern matches. -/
def svgMatch : Nat → List Char → Option (List Char × List Char)
  | 0, _ => none
  | _ + 1, [] => none
  | fuel + 1, c :: t =>
    match svgMatchAt (c :: t) with
    | some r => some r
    | none => svgMatch fuel t

/-- value alternation of `VIEW_BOX_RE`:
`(?:"([^"]*)"|'([^']*)'|([^\s"'=<>`]+))` (the closing backtick-class char is
written `\x60`).  A quoted group may be empty; the bare group may not. -/
def viewBoxValue (r3 : List Char) : Option (List Char) :=
  match r3 with
  | '"' :: r4 =>
    let v := r4.takeWhile (fun c => !(c == '"'))
    match r4.drop v.length with
    | '"' :: _ => some v
    | _ => none
  | '\'' :: r4 =>
    let v := r4.takeWhile (fun c => !(c == '\''))
    match r4.drop v.length with
    | '\'' :: _ => some v
    | _ => none
  | _ =>
    let v := r3.takeWhile (fun c => !(isSpaceJS c) && !(c == '"') &&
      !(c == '\'') && !(c == '=') && !(c == '<') && !(c == '>') &&
      !(c == '\x60'))
    if v.isEmpty then none else some v

/-- One attempt of `\bviewBox\s*=\s*(…)` at this position. -/
def viewBoxAt (prev : Option Char) (s : List Char) : Option (List Char) :=
  if boundaryBlocked prev then none
  else
    match ciStripPfx "viewBox".data s with
    | none => none
    | some pr =>
      match pr.2.dropWhile isSpaceJS with
      | '=' :: r2 => viewBoxValue (r2.dropWhile isSpaceJS)
      | _ => none

def parseViewBoxScan : Nat → Option Char → List Char → Option (List Char)
  | 0, _, _ => none
  | _ + 1, _, [] => none
  | fuel + 1, prev, c :: t =>
    match viewBoxAt prev (c :: t) with
    | some v => some v
    | none => parseViewBoxScan fuel (some c) t

/-- `parseViewBox` (lines 53–56): first match of `VIEW_BOX_RE` in the
attributes text, value group. -/
def parseViewBox (attrs : List Char) : Option (List Char) :=
  parseViewBoxScan attrs.length none attrs

/-- value part of the strip regexes: `(?:"[^"]*"|'[^']*'|[^\s>]+)`; an
unclosed quoted value falls back to the bare alternative from the same
position.  Returns the rest after the value. -/
def stripValue (s : List Char) : Option (List Char) :=
  let bare :=
    let v := s.takeWhile (fun c => !(isSpaceJS c) && !(c == '>'))
    if v.isEmpty then none else some (s.drop v.length)
  match s with
  | '"' :: r =>
    let v := r.takeWhile (fun c => !(c == '"'))
    (match r.drop v.length with
     | '"' :: rest => some rest
     | _ => bare)
  | '\'' :: r =>
    let v := r.takeWhile (fun c => !(c == '\''))
    (match r.drop v.length with
     | '\'' :: rest => some rest
     | _ => bare)
  | _ => bare

/-- name alternation plus `\s*=\s*value`, with backtracking to the next name
on any later failure (e.g. `stroke` vs `stroke-width`). -/
def tryStripNames (names : List (List Char)) (s : List Char) :
    Option (List Char) :=
  match names with
  | [] => none
  | n :: rest =>
    match ciStripPfx n s with
    | some pr =>
      (match pr.2.dropWhile isSpaceJS with
       | '=' :: r2 =>
         (match stripValue (r2.dropWhile isSpaceJS) with
          | some r3 => some r3
          | none => tryStripNames rest s)
       | _ => tryStripNames rest s)
    | none => tryStripNames rest s

/-- One attempt of `\s(?:names)\s*=\s*value` at this position. -/
def stripMatchAt (names : List (List Char)) (s : List Char) :
    Option (List Char) :=
  match s with
  | c :: r => if isSpaceJS c then tryStripNames names r else none
  | [] => none

/-- the `g`-flag `replace(re, '')` loop: drop every match, keep the rest. -/
def stripScan (names : List (List Char)) : Nat → List Char → List Char
  | 0, s => s
  | _ + 1, [] => []
  | fuel + 1, c :: t =>
    match stripMatchAt names (c :: t) with
    | some rest => stripScan names fuel rest
    | none => c :: stripScan names fuel t

def stripAttrs (names : List (List Char)) (s : List Char) : List Char :=
  stripScan names s.length s

/-- alternatives of `BASE_STRIP_RE` (line 21), in regex order. -/
def baseStripNames : List (List Char) :=
  ["xmlns".data, "fill".data, "stroke".data, "stroke-width".data,
   "aria-hidden".data, "data-slot".data]

/-- alternatives of `OUTLINE_STRIP_RE` (line 22). -/
def outlineStripNames : List (List Char) :=
  ["stroke-linecap".data, "stroke-linejoin".data]

/-- JS `String.prototype.trim` (whitespace model as in `isSpaceJS`). -/
def trimChars (s : List Char) : List Char :=
  ((s.dropWhile isSpaceJS).reverse.dropWhile isSpaceJS).reverse

/-- the template literal of line 212. -/
def mkSymbol (iconId viewBox : String) (body : List Char) : String :=
  "<symbol id=\"" ++ escapeAttributeValue iconId ++ "\" viewBox=\"" ++
    escapeAttributeValue viewBox ++ "\">" ++ (⟨trimChars body⟩ : String) ++
    "</symbol>"

/-- `path.join(iconDir, iconName + '.svg')` (line 186) for separator-free
components. -/
def pathJoin (dir file : String) : String := dir ++ "/" ++ file

def msgMissing (iconId iconPath : String) : String :=
  "Missing icon \"" ++ iconId ++ "\" at " ++ iconPath

def msgInvalid (iconId iconPath : String) : String :=
  "Invalid SVG for icon \"" ++ iconId ++ "\" at " ++ iconPath

def msgNoViewBox (iconId iconPath : String) : String :=
  "Missing viewBox for icon \"" ++ iconId ++ "\" at " ++ iconPath

/-! ### `loadSymbol` (lines 174–215)

The async function is split at its single `await` point: `loadSymbolStart`
is the synchronous prelude (cache check, id split, directory lookup, and
issuing the `fs.readFile`), `loadSymbolFinish` is the post-await
continuation (catch handler, parsing, stripping, caching).  Sequential
`loadSymbol` chains the two, which is byte-for-byte the source control
flow; the split additionally lets interleaved executions be modelled. -/

inductive StartResult where
  | done (result : Option String)
  | inflight (iconPath : String)
deriving DecidableEq, Repr

/-- lines 175–190: everything before the `await` resolves.  A cache hit or
an early `return null` completes synchronously (`done`); otherwise the read
for `iconPath` has been issued (recorded in `reads`) and is `inflight`.
The JS `if (cached) return cached` truthiness test coincides with presence
because every stored symbol starts with `<symbol` and is nonempty. -/
def loadSymbolStart (st : PluginState) (iconId : IconId) :
    PluginState × StartResult :=
  match mapGet st.symbolById iconId with
  | some cached => (st, .done (some cached))
  | none =>
    match iconId.data.findIdx? (fun c => c == '/') with
    | none => (st, .done none)
    | some slash =>
      if slash = 0 ∨ slash + 1 = iconId.data.length then (st, .done none)
      else
        let pfx : String := ⟨iconId.data.take slash⟩
        let iconName : String := ⟨iconId.data.drop (slash + 1)⟩
        match mapGet st.iconDirs pfx with
        | none => (st, .done none)
        | some iconDir =>
          let iconPath := pathJoin iconDir (iconName ++ ".svg")
          ({ st with reads := st.reads ++ [iconPath] }, .inflight iconPath)

/-- lines 192–214: the continuation after `await fs.readFile` (`fs` failure
is the `catch` branch). -/
def loadSymbolFinish (fs : FS) (st : PluginState) (iconId : IconId)
    (iconPath : String) : PluginState × Option String :=
  match fs iconPath with
  | none => (warnOnce st iconId (msgMissing iconId iconPath), none)
  | some source =>
    match svgMatch source.data.length source.data with
    | none => (warnOnce st iconId (msgInvalid iconId iconPath), none)
    | some (attrs, rawBody) =>
      match parseViewBox attrs with
      | none => (warnOnce st iconId (msgNoViewBox iconId iconPath), none)
      | some vb =>
        if vb.isEmpty then
          -- `if (!viewBox)`: the empty string is falsy in JS
          (warnOnce st iconId (msgNoViewBox iconId iconPath), none)
        else
          let pfx : String :=
            ⟨iconId.data.take ((iconId.data.findIdx? (fun c => c == '/')).getD 0)⟩
          let body1 := stripAttrs baseStripNames rawBody
          let body2 :=
            if pfx == "heroicons-outline" then stripAttrs outlineStripNames body1
            else body1
          let symbol := mkSymbol iconId (⟨vb⟩ : String) body2
          ({ st with symbolById := mapSet st.symbolById iconId symbol },
           some symbol)

/-- `loadSymbol` run to completion with no interleaving. -/
def loadSymbol (fs : FS) (st : PluginState) (iconId : IconId) :
    PluginState × Option String :=
  match loadSymbolStart st iconId with
  | (st1, .done r) => (st1, r)
  | (st1, .inflight iconPath) => loadSymbolFinish fs st1 iconId iconPath

/-! ### `getSprite` (lines 217–231) -/

/-- Lexicographic code-unit comparison: the order of JS
`Array.prototype.sort`'s default comparator on strings. -/
def strLtb : List Char → List Char → Bool
  | [], [] => false
  | [], _ :: _ => true
  | _ :: _, [] => false
  | a :: as, b :: bs =>
    if a < b then true
    else if b < a then false
    else strLtb as bs

def strLeb (a b : String) : Bool := !(strLtb b.data a.data)

/-- the sort order used by `getSprite` line 220. -/
def jsStrLe (a b : String) : Prop := strLeb a b = true

instance : DecidableRel jsStrLe := fun a b => by
  unfold jsStrLe; infer_instance

/-- `[...state.refCountById.keys()].sort()` (line 220): JS default sort is
ascending lexicographic string order. -/
def activeIdsSorted (st : PluginState) : List IconId :=
  List.insertionSort jsStrLe (st.refCountById.map (fun e => e.1))

/-- `Promise.all(iconIds.map(iconId => loadSymbol(ctx, iconId)))` (line 223)
sequentialised in array order.  The ids of one pass are pairwise distinct
(`Map` keys), and `loadSymbol` for an id touches no other id's cache entry,
so any completion interleaving yields this same result. -/
def loadAll (fs : FS) (st : PluginState) : List IconId →
    PluginState × List (Option String)
  | [] => (st, [])
  | iconId :: rest =>
    let r := loadSymbol fs st iconId
    let rr := loadAll fs r.1 rest
    (rr.1, r.2 :: rr.2)

/-- `options.className ? ` class="${escapeAttributeValue(options.className)}"`
: ''` (line 227); the empty string is the falsy case. -/
def classAttributeOf (className : String) : String :=
  if className = "" then ""
  else " class=\"" ++ escapeAttributeValue className ++ "\""

/-- `getSprite` (lines 217–231).  `symbols.filter(Boolean)` keeps exactly
the non-null results (stored symbols are nonempty strings, so JS truthiness
coincides with non-null); `if (!inner)` tests for the empty string. -/
def getSprite (fs : FS) (className : String) (st : PluginState) :
    PluginState × Sprite :=
  if !st.spriteDirty then (st, st.sprite)
  else
    let iconIds := activeIdsSorted st
    if iconIds.isEmpty then (setEmptySprite st, EMPTY_SPRITE)
    else
      let loaded := loadAll fs st iconIds
      let inner := String.join (loaded.2.filterMap (fun x => x))
      if inner = "" then (setEmptySprite loaded.1, EMPTY_SPRITE)
      else
        let sp : Sprite :=
          { full := "<svg" ++ classAttributeOf className ++ ">" ++ inner ++
              "</svg>",
            inner := inner }
        ({ loaded.1 with sprite := sp, spriteDirty := false }, sp)

/-! ### Build-generation operation sequences -/

inductive Op where
  | replace (key : String) (ids : List IconId)
  | compose
deriving Repr

def applyOp (fs : FS) (className : String) (st : PluginState) : Op →
    PluginState
  | .replace key ids => replaceFileRefs st key ids
  | .compose => (getSprite fs className st).1

/-- A build generation: `buildStart` reset followed by any sequence of
scans (`transform` → `replaceFileRefs`) and compositions
(`transformIndexHtml`/`generateBundle` → `getSprite`). -/
def runOps (fs : FS) (className : String) (iconDirs : List (String × String))
    (ops : List Op) : PluginState :=
  ops.foldl (applyOp fs className) (initState iconDirs)

/-! ### Interleaved resolution model (for the concurrency claim)

`pending` is the set of in-flight `fs.readFile` operations.  A `start`
event runs the synchronous prelude of one `loadSymbol` call (JS code between
`await` points runs atomically on the event loop); a `finish` event delivers
one read result and runs the continuation. -/

structure AsyncState where
  core : PluginState
  pending : List (Nat × IconId × String)
deriving Repr

inductive AsyncEv where
  | start (tag : Nat) (iconId : IconId)
  | finish (tag : Nat)
deriving Repr

def initAsync (iconDirs : List (String × String)) : AsyncState :=
  { core := initState iconDirs, pending := [] }

def asyncStep (fs : FS) (st : AsyncState) : AsyncEv → AsyncState
  | .start tag iconId =>
    match loadSymbolStart st.core iconId with
    | (st1, .done _) => { st with core := st1 }
    | (st1, .inflight iconPath) =>
      { core := st1, pending := st.pending ++ [(tag, iconId, iconPath)] }
  | .finish tag =>
    match st.pending.find? (fun e => e.1 == tag) with
    | none => st
    | some e =>
      { core := (loadSymbolFinish fs st.core e.2.1 e.2.2).1,
        pending := st.pending.filter (fun e => !(e.1 == tag)) }

def asyncRun (fs : FS) (st : AsyncState) (evs : List AsyncEv) : AsyncState :=
  evs.foldl (asyncStep fs) st

/-! ## Basic association-map lemmas -/

theorem mapGet_cons {α : Type} (a : String × α) (m : List (String × α))
    (k : String) :
    mapGet (a :: m) k = if a.1 == k then some a.2 else mapGet m k := by
  cases h : a.1 == k <;> simp [mapGet, List.find?, h]

theorem mapGet_mapSet_self {α : Type} (m : List (String × α)) (k : String)
    (v : α) : mapGet (mapSet m k v) k = some v := by
  induction m with
  | nil => simp [mapGet, mapSet, List.find?]
  | cons a m ih =>
    cases h : a.1 == k with
    | true =>
      have h' : a.1 = k := by simpa using h
      simp only [mapSet, List.find?, h, Option.isSome_some, if_true]
      simp [mapGet_cons, h']
    | false =>
      have h' : ¬ a.1 = k := by simpa using h
      have hfind : List.find? (fun e => e.1 == k) (a :: m) =
          List.find? (fun e => e.1 == k) m := by
        simp [List.find?, h]
      simp only [mapSet, hfind]
      cases hs : (List.find? (fun e => e.1 == k) m).isSome with
      | true =>
        simp only [if_true]
        have hm := ih
        simp only [mapSet, hs, if_true] at hm
        simpa [mapGet_cons, h, h'] using hm
      | false =>
        simp only [Bool.false_eq_true, if_false]
        have hm := ih
        simp only [mapSet, hs, Bool.false_eq_true, if_false] at hm
        simpa [List.cons_append, mapGet_cons, h, h'] using hm

theorem mapGet_mapDelete_self {α : Type} (m : List (String × α))
    (k : String) : mapGet (mapDelete m k) k = none := by
  induction m with
  | nil => simp [mapGet, mapDelete, List.find?]
  | cons a m ih =>
    cases h : a.1 == k with
    | true => simpa [mapDelete, h] using ih
    | false =>
      simp only [mapDelete, List.filter] at ih ⊢
      simp [h, mapGet_cons, ih]

/-! ## Claim C10: attribute-value escaping -/

theorem quot_not_mem_replaceAllChar (s : List Char) :
    '"' ∉ replaceAllChar '"' "&quot;".data s := by
  induction s with
  | nil => simp [replaceAllChar]
  | cons c cs ih =>
    simp only [replaceAllChar]
    intro hmem
    rcases List.mem_append.mp hmem with h1 | h1
    · by_cases hc : c = '"'
      · rw [if_pos hc] at h1
        revert h1
        decide
      · rw [if_neg hc] at h1
        simp at h1
        exact hc h1.symm
    · exact ih h1

/-- C10: every value the composer embeds into an attribute position — the
icon id and viewBox inside `mkSymbol` (line 212) and the configured class
name (line 227) — passes through `escapeAttributeValue`, which rewrites
`&` to `&amp;` and `"` to `&quot;`; the escaped value therefore contains no
double-quote character, so it cannot terminate the surrounding
double-quoted attribute. -/
theorem attribute_values_escaped (iconId viewBox className : String)
    (body : List Char) :
    '"' ∉ (escapeAttributeValue iconId).data ∧
    '"' ∉ (escapeAttributeValue viewBox).data ∧
    '"' ∉ (escapeAttributeValue className).data ∧
    mkSymbol iconId viewBox body =
      "<symbol id=\"" ++ escapeAttributeValue iconId ++ "\" viewBox=\"" ++
        escapeAttributeValue viewBox ++ "\">" ++
        (⟨trimChars body⟩ : String) ++ "</symbol>" ∧
    classAttributeOf className =
      (if className = "" then ""
       else " class=\"" ++ escapeAttributeValue className ++ "\"") := by
  refine ⟨?_, ?_, ?_, rfl, rfl⟩ <;> exact quot_not_mem_replaceAllChar _

/-! ## Claim C5: `getSprite` memoization and idempotence -/

theorem getSprite_clears (fs : FS) (cn : String) (st : PluginState) :
    (getSprite fs cn st).1.spriteDirty = false ∧
    (getSprite fs cn st).1.sprite = (getSprite fs cn st).2 := by
  unfold getSprite
  cases h : st.spriteDirty with
  | false => simp [h]
  | true =>
    simp only [h, Bool.not_true, Bool.false_eq_true, if_false]
    split
    · simp [setEmptySprite]
    · split <;> simp [setEmptySprite]

/-- C5: `compose` is memoized and idempotent.  When the dirty flag is clear
`getSprite` returns the stored sprite and leaves the state untouched
(line 218); consequently a second `getSprite` with no intervening mutation
returns the identical state and byte-identical sprite. -/
theorem getSprite_memoized_idempotent (fs : FS) (cn : String)
    (st : PluginState) :
    getSprite fs cn { st with spriteDirty := false } =
      ({ st with spriteDirty := false }, st.sprite) ∧
    getSprite fs cn (getSprite fs cn st).1 = getSprite fs cn st := by
  have clean : ∀ s : PluginState, s.spriteDirty = false →
      getSprite fs cn s = (s, s.sprite) := by
    intro s hs
    unfold getSprite
    simp [hs]
  refine ⟨clean _ rfl, ?_⟩
  have h := getSprite_clears fs cn st
  rw [clean (getSprite fs cn st).1 h.1, h.2]

/-! ## Claim C8: the canonical empty sprite -/

theorem getSprite_all_failed_empty (fs : FS) (cn : String) (st : PluginState)
    (hd : st.spriteDirty = true)
    (h : (getSprite fs cn st).2.inner = "") :
    (getSprite fs cn st).2 = EMPTY_SPRITE ∧
    (getSprite fs cn st).1.sprite = EMPTY_SPRITE ∧
    (getSprite fs cn st).1.spriteDirty = false := by
  unfold getSprite at h ⊢
  simp only [hd, Bool.not_true, Bool.false_eq_true, if_false] at h ⊢
  by_cases h1 : (activeIdsSorted st).isEmpty = true
  · simp [h1, setEmptySprite]
  · by_cases h2 : String.join (List.filterMap (fun x => x)
        (loadAll fs st (activeIdsSorted st)).2) = ""
    · simp [h1, h2, setEmptySprite]
    · exfalso
      simp only [h1, Bool.false_eq_true, if_false, if_neg h2] at h
      exact h2 h

/-- C8: when the active-ID universe is empty, or every resolution fails
(equivalently: the assembled inner text is empty), `getSprite` returns and
memoizes the canonical empty sprite — full and inner text both the empty
string — never a container element without children. -/
theorem getSprite_empty_canonical (fs : FS) (cn : String) (st : PluginState) :
    getSprite fs cn { st with refCountById := [], spriteDirty := true } =
      ({ st with refCountById := [], spriteDirty := false,
                 sprite := EMPTY_SPRITE }, EMPTY_SPRITE) ∧
    ((getSprite fs cn { st with spriteDirty := true }).2.inner = "" →
      (getSprite fs cn { st with spriteDirty := true }).2 = EMPTY_SPRITE ∧
      (getSprite fs cn { st with spriteDirty := true }).1.sprite =
        EMPTY_SPRITE ∧
      (getSprite fs cn { st with spriteDirty := true }).1.spriteDirty =
        false) := by
  constructor
  · rfl
  · exact getSprite_all_failed_empty fs cn _ rfl

def fsNone : FS := fun _ => none

/-! ## Claim C6: `replaceFileRefs` is a no-op on a set-equal rescan -/

theorem replaceFileRefs_of_none_nil (st : PluginState) (fileKey : String)
    (h : mapGet st.refsByFile fileKey = none) :
    replaceFileRefs st fileKey [] = st := by
  unfold replaceFileRefs
  simp [h]

theorem replaceFileRefs_of_same (st : PluginState) (fileKey : String)
    (nextIds : List IconId)
    (h : sameSet (mapGet st.refsByFile fileKey) nextIds = true) :
    replaceFileRefs st fileKey nextIds = st := by
  unfold replaceFileRefs
  by_cases h0 : (mapGet st.refsByFile fileKey).isNone ∧ nextIds = []
  · simp [h0]
  · simp [h0, h]

theorem replaceFileRefs_delete_eq (st : PluginState) (fileKey : String)
    (prev : List IconId) (hp : mapGet st.refsByFile fileKey = some prev)
    (hs : sameSet (some prev) [] = false) :
    replaceFileRefs st fileKey [] =
      { st with refsByFile := mapDelete st.refsByFile fileKey,
                refCountById := decAll st.refCountById prev,
                spriteDirty := true } := by
  unfold replaceFileRefs
  simp [hp, hs]

theorem replaceFileRefs_set_none (st : PluginState) (fileKey : String)
    (nextIds : List IconId) (hp : mapGet st.refsByFile fileKey = none)
    (hn : nextIds ≠ []) :
    replaceFileRefs st fileKey nextIds =
      { st with refsByFile := mapSet st.refsByFile fileKey nextIds,
                refCountById := incAll st.refCountById nextIds,
                spriteDirty := true } := by
  unfold replaceFileRefs
  simp [hp, hn, sameSet]

theorem replaceFileRefs_set_some (st : PluginState) (fileKey : String)
    (prev nextIds : List IconId)
    (hp : mapGet st.refsByFile fileKey = some prev)
    (hs : sameSet (some prev) nextIds = false) (hn : nextIds ≠ []) :
    replaceFileRefs st fileKey nextIds =
      { st with refsByFile := mapSet st.refsByFile fileKey nextIds,
                refCountById := incAll (decAll st.refCountById prev) nextIds,
                spriteDirty := true } := by
  unfold replaceFileRefs
  simp [hp, hs, hn]

theorem sameSet_refl (S : List IconId) : sameSet (some S) S = true := by
  simp only [sameSet, Bool.and_eq_true, beq_iff_eq, List.all_eq_true]
  refine ⟨trivial, fun v hv => ?_⟩
  simpa [List.contains, List.elem_iff] using hv

/-- C6: a second consecutive `replaceFileRefs` with the same id set is a
no-op: the whole state — dirty flag, reference counts, per-unit map — is
left exactly as the first call left it (`sameSet` early return, lines
144–145). -/
theorem replaceFileRefs_noop_on_rescan (st : PluginState) (key : String)
    (S : List IconId) :
    replaceFileRefs (replaceFileRefs st key S) key S =
      replaceFileRefs st key S := by
  rcases hp : mapGet st.refsByFile key with _ | prev
  · rcases hS : S with _ | ⟨a, S'⟩
    · subst hS
      simp only [replaceFileRefs_of_none_nil st key hp]
    · rw [← hS]
      have hn : S ≠ [] := by simp [hS]
      rw [replaceFileRefs_set_none st key S hp hn]
      apply replaceFileRefs_of_same
      have : mapGet (mapSet st.refsByFile key S) key = some S :=
        mapGet_mapSet_self _ _ _
      simpa [this] using sameSet_refl S
  · by_cases hsame : sameSet (some prev) S = true
    · have h1 : replaceFileRefs st key S = st :=
        replaceFileRefs_of_same st key S (by rw [hp]; exact hsame)
      simp only [h1]
    · have hs : sameSet (some prev) S = false := by
        simpa using hsame
      rcases hS : S with _ | ⟨a, S'⟩
      · subst hS
        rw [replaceFileRefs_delete_eq st key prev hp hs]
        apply replaceFileRefs_of_none_nil
        exact mapGet_mapDelete_self _ _
      · rw [← hS]
        have hn : S ≠ [] := by simp [hS]
        rw [replaceFileRefs_set_some st key prev S hp hs hn]
        apply replaceFileRefs_of_same
        have : mapGet (mapSet st.refsByFile key S) key = some S :=
          mapGet_mapSet_self _ _ _
        simpa [this] using sameSet_refl S

/-! ## Claim C4: deterministic sorted assembly order -/

theorem strLtb_asymm : ∀ {x y : List Char},
    strLtb x y = true → strLtb y x = false
  | [], [], h => by simp [strLtb] at h
  | [], _ :: _, _ => by simp [strLtb]
  | _ :: _, [], h => by simp [strLtb] at h
  | a :: as, b :: bs, h => by
    simp only [strLtb] at h ⊢
    rcases lt_trichotomy a b with h1 | h1 | h1
    · simp [h1, lt_asymm h1]
    · subst h1
      simp only [lt_irrefl, if_false] at h ⊢
      exact strLtb_asymm h
    · simp [h1, lt_asymm h1] at h

theorem strLtb_trans : ∀ {x y z : List Char},
    strLtb x y = true → strLtb y z = true → strLtb x z = true
  | [], _, [], _, h2 => by cases ‹List Char› <;> simp [strLtb] at h2
  | [], [], _ :: _, h1, _ => by simp [strLtb] at h1
  | [], _ :: _, _ :: _, _, _ => by simp [strLtb]
  | _ :: _, [], _, h1, _ => by simp [strLtb] at h1
  | _ :: _, _ :: _, [], _, h2 => by simp [strLtb] at h2
  | a :: as, b :: bs, c :: cs, h1, h2 => by
    simp only [strLtb] at h1 h2 ⊢
    rcases lt_trichotomy a b with hab | hab | hab
    · rcases lt_trichotomy b c with hbc | hbc | hbc
      · have hac := lt_trans hab hbc
        simp [hac]
      · subst hbc
        simp [hab]
      · simp [hbc, lt_asymm hbc] at h2
    · subst hab
      rcases lt_trichotomy a c with hac | hac | hac
      · simp [hac]
      · subst hac
        simp only [lt_irrefl, if_false] at h1 h2 ⊢
        exact strLtb_trans h1 h2
      · simp [hac, lt_asymm hac] at h2
    · simp [hab, lt_asymm hab] at h1

theorem strLtb_conn : ∀ {x y : List Char},
    strLtb x y = false → strLtb y x = false → x = y
  | [], [], _, _ => rfl
  | [], _ :: _, h, _ => by simp [strLtb] at h
  | _ :: _, [], _, h => by simp [strLtb] at h
  | a :: as, b :: bs, h1, h2 => by
    simp only [strLtb] at h1 h2
    rcases lt_trichotomy a b with hab | hab | hab
    · simp [hab] at h1
    · subst hab
      simp only [lt_irrefl, if_false] at h1 h2
      rw [strLtb_conn h1 h2]
    · simp [hab] at h2

theorem jsStrLe_total (a b : String) : jsStrLe a b ∨ jsStrLe b a := by
  unfold jsStrLe strLeb
  cases h : strLtb b.data a.data with
  | false => left; simp
  | true => right; simp [strLtb_asymm h]

instance : IsTotal String jsStrLe := ⟨jsStrLe_total⟩

theorem jsStrLe_trans (a b c : String) (h1 : jsStrLe a b)
    (h2 : jsStrLe b c) : jsStrLe a c := by
  unfold jsStrLe strLeb at h1 h2 ⊢
  simp only [Bool.not_eq_true'] at h1 h2 ⊢
  cases hca : strLtb c.data a.data with
  | false => rfl
  | true =>
    exfalso
    cases hab : strLtb a.data b.data with
    | true =>
      have hcb := strLtb_trans hca hab
      rw [h2] at hcb
      exact Bool.false_ne_true hcb
    | false =>
      have hba : a.data = b.data := strLtb_conn hab h1
      rw [hba] at hca
      rw [h2] at hca
      exact Bool.false_ne_true hca

instance : IsTrans String jsStrLe := ⟨jsStrLe_trans⟩

theorem jsStrLe_antisymm (a b : String) (h1 : jsStrLe a b)
    (h2 : jsStrLe b a) : a = b := by
  unfold jsStrLe strLeb at h1 h2
  simp only [Bool.not_eq_true'] at h1 h2
  have hd : a.data = b.data := strLtb_conn h2 h1
  cases a
  cases b
  exact congrArg String.mk hd

instance : IsAntisymm String jsStrLe := ⟨jsStrLe_antisymm⟩

/-- C4: `getSprite` assembles the sprite over the active-ID universe in
ascending lexicographic order (line 220): the id list it iterates is sorted
under the JS string order, and it depends only on the set of active ids —
any two states whose `refCountById` keys are permutations of one another
(e.g. produced by different insertion orders) yield the identical ordered
list. -/
theorem getSprite_order_sorted (st1 st2 : PluginState)
    (h : List.Perm (st1.refCountById.map (fun e => e.1))
      (st2.refCountById.map (fun e => e.1))) :
    List.Sorted jsStrLe (activeIdsSorted st1) ∧
    activeIdsSorted st1 = activeIdsSorted st2 := by
  constructor
  · exact List.sorted_insertionSort jsStrLe _
  · exact List.eq_of_perm_of_sorted
      ((List.perm_insertionSort jsStrLe _).trans
        (h.trans (List.perm_insertionSort jsStrLe _).symm))
      (List.sorted_insertionSort jsStrLe _)
      (List.sorted_insertionSort jsStrLe _)

/-- the spec's example states: units referencing `{"b/x","a/y"}` and
`{"a/y"}`, inserted in the two possible orders. -/
def exampleStBA : PluginState :=
  replaceFileRefs (replaceFileRefs (initState []) "u1" ["b/x", "a/y"])
    "u2" ["a/y"]

def exampleStAB : PluginState :=
  replaceFileRefs (replaceFileRefs (initState []) "u2" ["a/y"])
    "u1" ["b/x", "a/y"]

/-- Witness for C4: on the spec's example the two insertion orders give the
same sorted id list, `a/y` before `b/x`. -/
theorem getSprite_order_sorted_witness :
    (List.Sorted jsStrLe (activeIdsSorted exampleStBA) ∧
      activeIdsSorted exampleStBA = activeIdsSorted exampleStAB) ∧
    activeIdsSorted exampleStBA = ["a/y", "b/x"] :=
  ⟨getSprite_order_sorted exampleStBA exampleStAB (by decide), by decide⟩

/-! ## Claim C1: resolution failures are not cached -/

/-- C1 (evaluation of the code at the failing input): resolving the same
broken id `foo/missing` twice in one generation returns `null` both times,
but performs **two** `fs.readFile` attempts — `symbolById` caches successes
only (line 213 is only reached on success), so the failure outcome is not
memoized; only the warning is deduplicated (one warning). -/
theorem loadSymbol_failure_not_cached :
    (loadSymbol fsNone (initState [("foo", "icons")]) "foo/missing").2 =
      none ∧
    (loadSymbol fsNone
      ((loadSymbol fsNone (initState [("foo", "icons")]) "foo/missing").1)
      "foo/missing").2 = none ∧
    (loadSymbol fsNone
      ((loadSymbol fsNone (initState [("foo", "icons")]) "foo/missing").1)
      "foo/missing").1.reads =
      ["icons/missing.svg", "icons/missing.svg"] ∧
    (loadSymbol fsNone
      ((loadSymbol fsNone (initState [("foo", "icons")]) "foo/missing").1)
      "foo/missing").1.warnings.length = 1 := by
  decide

/-! ## Claim C7: at most one diagnostic per failing id per generation

The invariant: the ids of the emitted warnings are exactly the `warnedIds`
list, in order, and that list is duplicate-free.  Every operation of a
generation preserves it. -/

def WarnInv (st : PluginState) : Prop :=
  st.warnings.map (fun w => w.1) = st.warnedIds ∧ st.warnedIds.Nodup

theorem warnInv_init (dirs : List (String × String)) :
    WarnInv (initState dirs) := by
  constructor <;> simp [initState]

theorem warnOnce_warnInv {st : PluginState} (h : WarnInv st)
    (iconId : IconId) (msg : String) : WarnInv (warnOnce st iconId msg) := by
  unfold warnOnce
  cases hc : st.warnedIds.contains iconId with
  | true => simpa using h
  | false =>
    have hmem : iconId ∉ st.warnedIds := by
      simpa [List.contains, List.elem_iff] using hc
    simp only [Bool.false_eq_true, if_false]
    constructor
    · simp [h.1]
    · rw [List.nodup_append]
      exact ⟨h.2, List.nodup_singleton _,
        fun a ha hb => by simp at hb; subst hb; exact hmem ha⟩

theorem loadSymbolStart_warnFields (st : PluginState) (iconId : IconId) :
    (loadSymbolStart st iconId).1.warnings = st.warnings ∧
    (loadSymbolStart st iconId).1.warnedIds = st.warnedIds := by
  unfold loadSymbolStart
  rcases mapGet st.symbolById iconId with _ | c
  · rcases iconId.data.findIdx? (fun c => c == '/') with _ | s
    · exact ⟨rfl, rfl⟩
    · simp only []
      split
      · exact ⟨rfl, rfl⟩
      · rcases mapGet st.iconDirs (⟨iconId.data.take s⟩ : String) with _ | d
        · exact ⟨rfl, rfl⟩
        · exact ⟨rfl, rfl⟩
  · exact ⟨rfl, rfl⟩

theorem loadSymbolStart_warnInv {st : PluginState} (h : WarnInv st)
    (iconId : IconId) : WarnInv (loadSymbolStart st iconId).1 := by
  have hf := loadSymbolStart_warnFields st iconId
  exact ⟨hf.1.symm ▸ hf.2.symm ▸ h.1, hf.2.symm ▸ h.2⟩

theorem loadSymbolFinish_warnInv {st : PluginState} (h : WarnInv st)
    (fs : FS) (iconId : IconId) (iconPath : String) :
    WarnInv (loadSymbolFinish fs st iconId iconPath).1 := by
  unfold loadSymbolFinish
  split
  · exact warnOnce_warnInv h _ _
  · split
    · exact warnOnce_warnInv h _ _
    · split
      · exact warnOnce_warnInv h _ _
      · split
        · exact warnOnce_warnInv h _ _
        · exact h

theorem loadSymbol_warnInv {st : PluginState} (h : WarnInv st) (fs : FS)
    (iconId : IconId) : WarnInv (loadSymbol fs st iconId).1 := by
  unfold loadSymbol
  rcases hs : loadSymbolStart st iconId with ⟨st1, r⟩
  have h1 : WarnInv st1 := by
    have := loadSymbolStart_warnInv h iconId
    rwa [hs] at this
  rcases r with _ | p
  · exact h1
  · exact loadSymbolFinish_warnInv h1 fs iconId p

theorem loadAll_warnInv (fs : FS) :
    ∀ (ids : List IconId) (st : PluginState), WarnInv st →
      WarnInv (loadAll fs st ids).1 := by
  intro ids
  induction ids with
  | nil => intro st h; exact h
  | cons i rest ih =>
    intro st h
    simp only [loadAll]
    exact ih _ (loadSymbol_warnInv h fs i)

theorem getSprite_warnInv {st : PluginState} (h : WarnInv st) (fs : FS)
    (cn : String) : WarnInv (getSprite fs cn st).1 := by
  unfold getSprite
  cases hd : st.spriteDirty with
  | false => simpa using h
  | true =>
    simp only [hd, Bool.not_true, Bool.false_eq_true, if_false]
    by_cases h1 : (activeIdsSorted st).isEmpty = true
    · simpa [h1, setEmptySprite] using h
    · have hl := loadAll_warnInv fs (activeIdsSorted st) st h
      by_cases h2 : String.join (List.filterMap (fun x => x)
          (loadAll fs st (activeIdsSorted st)).2) = ""
      · simpa [h1, h2, setEmptySprite] using hl
      · simpa [h1, h2] using hl

theorem replaceFileRefs_warnings_eq (st : PluginState) (k : String)
    (ids : List IconId) :
    (replaceFileRefs st k ids).warnings = st.warnings := by
  unfold replaceFileRefs
  by_cases h0 : (mapGet st.refsByFile k).isNone = true ∧ ids = []
  · simp [h0]
  · by_cases h1 : sameSet (mapGet st.refsByFile k) ids = true
    · simp [h0, h1]
    · by_cases h2 : ids = []
      · simp only [h0, h1, h2]
        simp only [sameSet]
        split
        · rfl
        · split
          · rfl
          · rfl
      · simp [h0, h1, h2]

theorem replaceFileRefs_warnedIds_eq (st : PluginState) (k : String)
    (ids : List IconId) :
    (replaceFileRefs st k ids).warnedIds = st.warnedIds := by
  unfold replaceFileRefs
  by_cases h0 : (mapGet st.refsByFile k).isNone = true ∧ ids = []
  · simp [h0]
  · by_cases h1 : sameSet (mapGet st.refsByFile k) ids = true
    · simp [h0, h1]
    · by_cases h2 : ids = []
      · simp only [h0, h1, h2]
        simp only [sameSet]
        split
        · rfl
        · split
          · rfl
          · rfl
      · simp [h0, h1, h2]

theorem replaceFileRefs_warnFields (st : PluginState) (k : String)
    (ids : List IconId) :
    (replaceFileRefs st k ids).warnings = st.warnings ∧
    (replaceFileRefs st k ids).warnedIds = st.warnedIds :=
  ⟨replaceFileRefs_warnings_eq st k ids, replaceFileRefs_warnedIds_eq st k ids⟩

theorem applyOp_warnInv {st : PluginState} (h : WarnInv st) (fs : FS)
    (cn : String) (op : Op) : WarnInv (applyOp fs cn st op) := by
  cases op with
  | replace k ids =>
    have hf := replaceFileRefs_warnFields st k ids
    exact ⟨hf.1.symm ▸ hf.2.symm ▸ h.1, hf.2.symm ▸ h.2⟩
  | compose => exact getSprite_warnInv h fs cn

theorem runOps_warnInv (fs : FS) (cn : String)
    (dirs : List (String × String)) (ops : List Op) :
    WarnInv (runOps fs cn dirs ops) := by
  unfold runOps
  have : ∀ (l : List Op) (st : PluginState), WarnInv st →
      WarnInv (l.foldl (applyOp fs cn) st) := by
    intro l
    induction l with
    | nil => intro st h; exact h
    | cons op rest ih =>
      intro st h
      exact ih _ (applyOp_warnInv h fs cn op)
  exact this ops _ (warnInv_init dirs)

/-- the spec's example scenario: a missing icon referenced by 50 distinct
units, followed by 10 `compose()` calls. -/
def c7Ops : List Op :=
  ((List.range 50).map (fun i => Op.replace ("u" ++ toString i)
    ["foo/missing"])) ++
  ((List.range 10).map (fun _ => Op.compose))

set_option maxRecDepth 40000 in
/-- C7: within one build generation — any sequence of scans and compose
calls from the reset state — at most one diagnostic is ever emitted per
distinct icon id, however many units reference it and however many
compositions run; and on the spec's example (a missing icon referenced by
50 distinct units followed by 10 compose calls) exactly one diagnostic is
emitted. -/
theorem warnings_at_most_once_per_id (fs : FS) (cn : String)
    (dirs : List (String × String)) (ops : List Op) (iconId : IconId) :
    (runOps fs cn dirs ops).warnings.countP (fun w => w.1 == iconId) ≤ 1 ∧
    (runOps fsNone "hidden" [("foo", "icons")] c7Ops).warnings.countP
      (fun w => w.1 == "foo/missing") = 1 := by
  constructor
  · have h := runOps_warnInv fs cn dirs ops
    have hmap : (runOps fs cn dirs ops).warnings.countP
        (fun w => w.1 == iconId) =
        ((runOps fs cn dirs ops).warnings.map (fun w => w.1)).countP
          (fun x => x == iconId) := by
      rw [List.countP_map]
      rfl
    rw [hmap, h.1]
    exact List.nodup_iff_count_le_one.mp h.2 iconId
  · decide

/-- Witness for C8: one referenced icon whose file is missing — every
resolution fails, and the composed sprite is the canonical empty value. -/
theorem getSprite_empty_canonical_witness :
    (getSprite fsNone "hidden"
      { replaceFileRefs (initState [("foo", "icons")]) "u1" ["foo/missing"]
          with spriteDirty := true }).2 = EMPTY_SPRITE ∧
    (getSprite fsNone "hidden"
      { replaceFileRefs (initState [("foo", "icons")]) "u1" ["foo/missing"]
          with spriteDirty := true }).1.sprite = EMPTY_SPRITE ∧
    (getSprite fsNone "hidden"
      { replaceFileRefs (initState [("foo", "icons")]) "u1" ["foo/missing"]
          with spriteDirty := true }).1.spriteDirty = false :=
  (getSprite_empty_canonical fsNone "hidden"
    (replaceFileRefs (initState [("foo", "icons")]) "u1" ["foo/missing"])).2
    (by decide)

/-! ## Claim C3: reference counts match the stored units

Auxiliary association-map lemmas. -/

theorem mapGet_map_update {α : Type} (m : List (String × α))
    (k k' : String) (v : α) (h : k' ≠ k) :
    mapGet (m.map (fun e => if e.1 == k then (k, v) else e)) k' =
      mapGet m k' := by
  induction m with
  | nil => rfl
  | cons a t ih =>
    simp only [List.map_cons]
    rw [mapGet_cons, mapGet_cons]
    by_cases hak : (a.1 == k) = true
    · have hak' : a.1 = k := by simpa using hak
      rw [if_pos hak]
      have h1 : (((k, v) : String × α).1 == k') = false :=
        beq_eq_false_iff_ne.mpr (Ne.symm h)
      have h2 : (a.1 == k') = false := by
        rw [hak']
        exact beq_eq_false_iff_ne.mpr (Ne.symm h)
      simp only [h1, h2, Bool.false_eq_true, if_false]
      exact ih
    · rw [if_neg hak]
      by_cases hak' : (a.1 == k') = true
      · simp [hak']
      · simp only [Bool.not_eq_true] at hak'
        simp only [hak', Bool.false_eq_true, if_false]
        exact ih

theorem mapGet_append_single_ne {α : Type} (m : List (String × α))
    (k k' : String) (v : α) (h : k' ≠ k) :
    mapGet (m ++ [(k, v)]) k' = mapGet m k' := by
  induction m with
  | nil =>
    have hkk : (k == k') = false := beq_eq_false_iff_ne.mpr (Ne.symm h)
    simp [mapGet, List.find?, hkk]
  | cons a t ih =>
    rw [List.cons_append, mapGet_cons, mapGet_cons]
    by_cases hak : (a.1 == k') = true
    · simp [hak]
    · simp only [Bool.not_eq_true] at hak
      simp only [hak, Bool.false_eq_true, if_false]
      exact ih

theorem mapGet_mapSet_ne {α : Type} (m : List (String × α)) (k k' : String)
    (v : α) (h : k' ≠ k) : mapGet (mapSet m k v) k' = mapGet m k' := by
  unfold mapSet
  split
  · exact mapGet_map_update m k k' v h
  · exact mapGet_append_single_ne m k k' v h

theorem mapGet_mapDelete_ne {α : Type} (m : List (String × α))
    (k k' : String) (h : k' ≠ k) :
    mapGet (mapDelete m k) k' = mapGet m k' := by
  induction m with
  | nil => simp [mapGet, mapDelete]
  | cons a m ih =>
    cases hk : a.1 == k with
    | true =>
      have hk' : a.1 = k := by simpa using hk
      have h2 : ¬ (a.1 == k') = true := by simp [hk', Ne.symm h]
      simp only [mapDelete, List.filter, hk, Bool.not_true]
      rw [mapGet_cons]
      simp only [h2, Bool.false_eq_true, if_false]
      simpa [mapDelete] using ih
    | false =>
      simp only [mapDelete, List.filter, hk, Bool.not_false]
      rw [mapGet_cons, mapGet_cons]
      cases ha : a.1 == k' with
      | true => simp
      | false =>
        simp only [Bool.false_eq_true, if_false]
        simpa [mapDelete] using ih

theorem mapGet_eq_none_iff {α : Type} (m : List (String × α)) (k : String) :
    mapGet m k = none ↔ k ∉ m.map (fun e => e.1) := by
  induction m with
  | nil => simp [mapGet]
  | cons a m ih =>
    rw [mapGet_cons]
    cases ha : a.1 == k with
    | true =>
      have ha' : a.1 = k := by simpa using ha
      simp [ha']
    | false =>
      have ha' : ¬ a.1 = k := by simpa using ha
      simp only [Bool.false_eq_true, if_false, List.map_cons, List.mem_cons]
      rw [ih]
      constructor
      · intro h hc
        rcases hc with hc | hc
        · exact ha' hc.symm
        · exact h hc
      · intro h
        exact fun hc => h (Or.inr hc)

theorem mapGet_mem {α : Type} (m : List (String × α)) (k : String) (v : α)
    (h : mapGet m k = some v) : (k, v) ∈ m := by
  induction m with
  | nil => simp [mapGet] at h
  | cons a m ih =>
    rw [mapGet_cons] at h
    cases ha : a.1 == k with
    | true =>
      have ha' : a.1 = k := by simpa using ha
      rw [ha] at h
      simp only [if_true] at h
      rcases a with ⟨a1, a2⟩
      simp only at ha'
      cases h
      subst ha'
      exact List.mem_cons_self _ _
    | false =>
      rw [ha] at h
      simp only [Bool.false_eq_true, if_false] at h
      exact List.mem_cons_of_mem _ (ih h)

theorem mapDelete_of_get_none {α : Type} (m : List (String × α))
    (k : String) (h : mapGet m k = none) : mapDelete m k = m := by
  rw [mapGet_eq_none_iff] at h
  apply List.filter_eq_self.mpr
  intro e he
  have : e.1 ≠ k := by
    intro hc
    exact h (List.mem_map.mpr ⟨e, he, hc⟩)
  simp [this]

theorem mapSet_of_get_none {α : Type} (m : List (String × α)) (k : String)
    (v : α) (h : mapGet m k = none) : mapSet m k v = m ++ [(k, v)] := by
  have hfind : (List.find? (fun e => e.1 == k) m).isSome = false := by
    unfold mapGet at h
    cases hf : List.find? (fun e => e.1 == k) m with
    | none => simp
    | some e => rw [hf] at h; simp at h
  simp [mapSet, hfind]

theorem keys_mapSet_present {α : Type} (m : List (String × α)) (k : String)
    (v : α) (h : (mapGet m k).isSome = true) :
    (mapSet m k v).map (fun e => e.1) = m.map (fun e => e.1) := by
  have hfind : (List.find? (fun e => e.1 == k) m).isSome = true := by
    unfold mapGet at h
    cases hf : List.find? (fun e => e.1 == k) m with
    | none => rw [hf] at h; simp at h
    | some e => simp
  simp only [mapSet, hfind, if_true, List.map_map]
  apply List.map_congr_left
  intro e _
  cases he : e.1 == k with
  | true =>
    have he' : e.1 = k := by simpa using he
    simp [Function.comp, he, he']
  | false => simp [Function.comp, he]

theorem mem_mapSet {α : Type} (m : List (String × α)) (k : String) (v : α)
    (e : String × α) (h : e ∈ mapSet m k v) : e = (k, v) ∨ e ∈ m := by
  unfold mapSet at h
  split at h
  · rcases List.mem_map.mp h with ⟨a, ha, hae⟩
    by_cases hak : (a.1 == k) = true
    · rw [if_pos hak] at hae
      exact Or.inl hae.symm
    · rw [if_neg hak] at hae
      exact Or.inr (hae ▸ ha)
  · rcases List.mem_append.mp h with h1 | h1
    · exact Or.inr h1
    · simp at h1
      exact Or.inl h1

theorem mem_mapDelete {α : Type} (m : List (String × α)) (k : String)
    (e : String × α) (h : e ∈ mapDelete m k) : e ∈ m :=
  List.mem_of_mem_filter h

/-- entry count read as `state.refCountById.get(iconId) ?? 0` (line 134). -/
def rcGet (m : List (IconId × Nat)) (iconId : IconId) : Nat :=
  (mapGet m iconId).getD 0

/-- number of stored source units whose set contains the id. -/
def unitCount (st : PluginState) (iconId : IconId) : Nat :=
  st.refsByFile.countP (fun e => e.2.contains iconId)

/-- well-formedness of the count map: unique keys, no entry is zero. -/
def RCOk (m : List (IconId × Nat)) : Prop :=
  (m.map (fun e => e.1)).Nodup ∧ ∀ e ∈ m, 0 < e.2

theorem rcGet_updateInc_self (m : List (IconId × Nat)) (i : IconId) :
    rcGet (updateRefCountMap m i 1) i = rcGet m i + 1 := by
  simp only [updateRefCountMap, rcGet]
  have hpos : ¬ (((mapGet m i).getD 0 : Int) + 1 ≤ 0) := by
    have h0 : (0 : Int) ≤ ((mapGet m i).getD 0 : Int) := Int.ofNat_nonneg _
    omega
  rw [if_neg hpos, mapGet_mapSet_self]
  simp only [Option.getD_some]
  omega

theorem rcGet_updateInc_ne (m : List (IconId × Nat)) (i j : IconId)
    (h : j ≠ i) : rcGet (updateRefCountMap m i 1) j = rcGet m j := by
  simp only [updateRefCountMap, rcGet]
  split
  · rw [mapGet_mapDelete_ne m i j h]
  · rw [mapGet_mapSet_ne m i j _ h]

theorem rcGet_updateDec_self (m : List (IconId × Nat)) (i : IconId) :
    rcGet (updateRefCountMap m i (-1)) i = rcGet m i - 1 := by
  simp only [updateRefCountMap, rcGet]
  split
  · next hle =>
    rw [mapGet_mapDelete_self]
    simp only [Option.getD_none]
    omega
  · next hgt =>
    rw [mapGet_mapSet_self]
    simp only [Option.getD_some]
    omega

theorem rcGet_updateDec_ne (m : List (IconId × Nat)) (i j : IconId)
    (h : j ≠ i) : rcGet (updateRefCountMap m i (-1)) j = rcGet m j := by
  simp only [updateRefCountMap, rcGet]
  split
  · rw [mapGet_mapDelete_ne m i j h]
  · rw [mapGet_mapSet_ne m i j _ h]

theorem RCOk_updateRefCountMap {m : List (IconId × Nat)} (h : RCOk m)
    (i : IconId) (d : Int) : RCOk (updateRefCountMap m i d) := by
  simp only [updateRefCountMap]
  split
  · constructor
    · exact h.1.sublist ((List.filter_sublist _).map _)
    · intro e he
      exact h.2 e (mem_mapDelete _ _ _ he)
  · next hgt =>
    constructor
    · cases hp : (mapGet m i).isSome with
      | true => rw [keys_mapSet_present m i _ hp]; exact h.1
      | false =>
        have hnone : mapGet m i = none := by
          cases hg : mapGet m i with
          | none => rfl
          | some x => rw [hg] at hp; simp at hp
        rw [mapSet_of_get_none m i _ hnone, List.map_append]
        rw [List.nodup_append]
        refine ⟨h.1, by simp, ?_⟩
        intro a ha hb
        simp at hb
        rw [hb] at ha
        exact (mapGet_eq_none_iff m i).mp hnone ha
    · intro e he
      rcases mem_mapSet m i _ e he with he1 | he1
      · subst he1
        show 0 < (((mapGet m i).getD 0 : Int) + d).toNat
        omega
      · exact h.2 e he1

theorem rcGet_incAll (m : List (IconId × Nat)) (L : List IconId)
    (hL : L.Nodup) (j : IconId) :
    rcGet (incAll m L) j = rcGet m j + (if j ∈ L then 1 else 0) := by
  induction L generalizing m with
  | nil => simp [incAll]
  | cons a L' ih =>
    have hL' : L'.Nodup := hL.of_cons
    have hna : a ∉ L' := by
      intro hc
      exact (List.nodup_cons.mp hL).1 hc
    show rcGet (incAll (updateRefCountMap m a 1) L') j = _
    rw [ih _ hL']
    by_cases hj : j = a
    · subst hj
      rw [rcGet_updateInc_self]
      simp [hna]
    · rw [rcGet_updateInc_ne m a j hj]
      simp only [List.mem_cons]
      by_cases hj2 : j ∈ L' <;> simp [hj, hj2]

theorem rcGet_decAll (m : List (IconId × Nat)) (L : List IconId)
    (hL : L.Nodup) (j : IconId) :
    rcGet (decAll m L) j = rcGet m j - (if j ∈ L then 1 else 0) := by
  induction L generalizing m with
  | nil => simp [decAll]
  | cons a L' ih =>
    have hL' : L'.Nodup := hL.of_cons
    have hna : a ∉ L' := by
      intro hc
      exact (List.nodup_cons.mp hL).1 hc
    show rcGet (decAll (updateRefCountMap m a (-1)) L') j = _
    rw [ih _ hL']
    by_cases hj : j = a
    · subst hj
      rw [rcGet_updateDec_self]
      simp [hna]
    · rw [rcGet_updateDec_ne m a j hj]
      simp only [List.mem_cons]
      by_cases hj2 : j ∈ L' <;> simp [hj, hj2]

theorem RCOk_incAll {m : List (IconId × Nat)} (h : RCOk m)
    (L : List IconId) : RCOk (incAll m L) := by
  induction L generalizing m with
  | nil => exact h
  | cons a L' ih =>
    show RCOk (incAll (updateRefCountMap m a 1) L')
    exact ih (RCOk_updateRefCountMap h a 1)

theorem RCOk_decAll {m : List (IconId × Nat)} (h : RCOk m)
    (L : List IconId) : RCOk (decAll m L) := by
  induction L generalizing m with
  | nil => exact h
  | cons a L' ih =>
    show RCOk (decAll (updateRefCountMap m a (-1)) L')
    exact ih (RCOk_updateRefCountMap h a (-1))

theorem mapDelete_cons_hit {α : Type} (a : String × α)
    (t : List (String × α)) (k : String) (hak : a.1 = k) :
    mapDelete (a :: t) k = mapDelete t k := by
  simp [mapDelete, List.filter, hak]

theorem mapDelete_cons_miss {α : Type} (a : String × α)
    (t : List (String × α)) (k : String) (hak : a.1 ≠ k) :
    mapDelete (a :: t) k = a :: mapDelete t k := by
  have hb : (a.1 == k) = false := beq_eq_false_iff_ne.mpr hak
  simp [mapDelete, List.filter, hb]

theorem mapSet_cons_hit {α : Type} (a : String × α) (t : List (String × α))
    (k : String) (v : α) (hak : a.1 = k) (hnk : ∀ e ∈ t, e.1 ≠ k) :
    mapSet (a :: t) k v = (k, v) :: t := by
  have hab : (a.1 == k) = true := by simp [hak]
  have hfind : (List.find? (fun e => e.1 == k) (a :: t)).isSome = true := by
    simp [List.find?, hab]
  simp only [mapSet, hfind, if_true, List.map_cons, hab]
  congr 1
  have hid : ∀ e ∈ t, (if e.1 == k then ((k, v) : String × α) else e) = e := by
    intro e he
    have hne : (e.1 == k) = false := beq_eq_false_iff_ne.mpr (hnk e he)
    simp [hne]
  rw [List.map_congr_left hid, List.map_id']

theorem mapSet_cons_miss {α : Type} (a : String × α) (t : List (String × α))
    (k : String) (v : α) (hak : a.1 ≠ k) :
    mapSet (a :: t) k v = a :: mapSet t k v := by
  have hab : (a.1 == k) = false := beq_eq_false_iff_ne.mpr hak
  cases hs : (List.find? (fun e => e.1 == k) t).isSome with
  | true =>
    have hfind : (List.find? (fun e => e.1 == k) (a :: t)).isSome = true := by
      simp [List.find?, hab, hs]
    simp only [mapSet, hfind, hs, if_true, List.map_cons, hab,
      Bool.false_eq_true, if_false]
  | false =>
    have hfind : (List.find? (fun e => e.1 == k) (a :: t)).isSome = false := by
      simp only [List.find?, hab]
      exact hs
    simp only [mapSet, hfind, hs, Bool.false_eq_true, if_false,
      List.cons_append]

theorem countP_mapDelete_of_get (p : String × List IconId → Bool)
    (m : List (String × List IconId)) (k : String) (P : List IconId)
    (hnd : (m.map (fun e => e.1)).Nodup) (hp : mapGet m k = some P) :
    (mapDelete m k).countP p + (if p (k, P) then 1 else 0) = m.countP p := by
  induction m with
  | nil => simp [mapGet] at hp
  | cons a t ih =>
    obtain ⟨a1, a2⟩ := a
    have hnd' := List.nodup_cons.mp hnd
    simp only [mapGet_cons] at hp
    by_cases hak : (a1 == k) = true
    · have hak' : a1 = k := by simpa using hak
      simp only [hak, if_true] at hp
      have hP : a2 = P := by injection hp
      subst hak'
      subst hP
      have hnone : mapGet t a1 = none := by
        rw [mapGet_eq_none_iff]
        simpa using hnd'.1
      rw [mapDelete_cons_hit _ t a1 rfl, mapDelete_of_get_none t a1 hnone,
        List.countP_cons]
    · have hak' : a1 ≠ k := by simpa using hak
      simp only [hak, Bool.false_eq_true, if_false] at hp
      rw [mapDelete_cons_miss _ t k hak', List.countP_cons, List.countP_cons]
      have hih := ih hnd'.2 hp
      omega

theorem countP_mapSet_of_get (p : String × List IconId → Bool)
    (m : List (String × List IconId)) (k : String) (P v : List IconId)
    (hnd : (m.map (fun e => e.1)).Nodup) (hp : mapGet m k = some P) :
    (mapSet m k v).countP p + (if p (k, P) then 1 else 0) =
      m.countP p + (if p (k, v) then 1 else 0) := by
  induction m with
  | nil => simp [mapGet] at hp
  | cons a t ih =>
    obtain ⟨a1, a2⟩ := a
    have hnd' := List.nodup_cons.mp hnd
    simp only [mapGet_cons] at hp
    by_cases hak : (a1 == k) = true
    · have hak' : a1 = k := by simpa using hak
      simp only [hak, if_true] at hp
      have hP : a2 = P := by injection hp
      subst hak'
      subst hP
      have hnk : ∀ e ∈ t, e.1 ≠ a1 := by
        intro e he hc
        exact (by simpa using hnd'.1 : a1 ∉ t.map (fun e => e.1))
          (List.mem_map.mpr ⟨e, he, hc⟩)
      rw [mapSet_cons_hit _ t a1 v rfl hnk, List.countP_cons,
        List.countP_cons]
      omega
    · have hak' : a1 ≠ k := by simpa using hak
      simp only [hak, Bool.false_eq_true, if_false] at hp
      rw [mapSet_cons_miss _ t k v hak', List.countP_cons, List.countP_cons]
      have hih := ih hnd'.2 hp
      omega

theorem countP_mapSet_of_none (p : String × List IconId → Bool)
    (m : List (String × List IconId)) (k : String) (v : List IconId)
    (hp : mapGet m k = none) :
    (mapSet m k v).countP p = m.countP p + (if p (k, v) then 1 else 0) := by
  rw [mapSet_of_get_none m k v hp, List.countP_append]
  rw [List.countP_cons, List.countP_nil]
  omega

theorem ite_contains_eq (l : List IconId) (j : IconId) :
    (if l.contains j then (1 : Nat) else 0) = if j ∈ l then 1 else 0 := by
  by_cases hj : j ∈ l <;> simp [List.contains, List.elem_iff, hj]

/-- The store invariant: per-unit keys are unique, every stored id set is a
genuine set (duplicate-free), the count map is well formed, and every count
equals the number of stored units containing the id. -/
def StoreInv (st : PluginState) : Prop :=
  (st.refsByFile.map (fun e => e.1)).Nodup ∧
  (∀ e ∈ st.refsByFile, e.2.Nodup) ∧
  RCOk st.refCountById ∧
  ∀ iconId, rcGet st.refCountById iconId = unitCount st iconId

theorem replaceFileRefs_StoreInv {st : PluginState} (h : StoreInv st)
    (key : String) (ids : List IconId) (hids : ids.Nodup) :
    StoreInv (replaceFileRefs st key ids) := by
  obtain ⟨hk, hsets, hrc, hcount⟩ := h
  rcases hp : mapGet st.refsByFile key with _ | prev
  · by_cases hnil : ids = []
    · subst hnil
      rw [replaceFileRefs_of_none_nil st key hp]
      exact ⟨hk, hsets, hrc, hcount⟩
    · rw [replaceFileRefs_set_none st key ids hp hnil]
      refine ⟨?_, ?_, ?_, ?_⟩
      · show ((mapSet st.refsByFile key ids).map (fun e => e.1)).Nodup
        rw [mapSet_of_get_none _ _ _ hp, List.map_append, List.nodup_append]
        refine ⟨hk, by simp, ?_⟩
        intro a ha hb
        simp at hb
        rw [hb] at ha
        exact (mapGet_eq_none_iff _ key).mp hp ha
      · intro e he
        rcases mem_mapSet _ _ _ e he with he1 | he1
        · rw [he1]
          exact hids
        · exact hsets e he1
      · exact RCOk_incAll hrc ids
      · intro j
        show rcGet (incAll st.refCountById ids) j =
          (mapSet st.refsByFile key ids).countP (fun e => e.2.contains j)
        rw [rcGet_incAll _ ids hids j, hcount j,
          countP_mapSet_of_none _ _ _ _ hp]
        unfold unitCount
        have halign : (if ((key, ids) : String × List IconId).2.contains j
            then (1 : Nat) else 0) = if j ∈ ids then 1 else 0 :=
          ite_contains_eq ids j
        omega
  · by_cases hsame : sameSet (some prev) ids = true
    · rw [replaceFileRefs_of_same st key ids (by rw [hp]; exact hsame)]
      exact ⟨hk, hsets, hrc, hcount⟩
    · have hsame' : sameSet (some prev) ids = false := by simpa using hsame
      have hprevmem : (key, prev) ∈ st.refsByFile := mapGet_mem _ _ _ hp
      have hprevnd : prev.Nodup := hsets _ hprevmem
      by_cases hnil : ids = []
      · subst hnil
        rw [replaceFileRefs_delete_eq st key prev hp hsame']
        refine ⟨?_, ?_, ?_, ?_⟩
        · exact hk.sublist ((List.filter_sublist _).map _)
        · intro e he
          exact hsets e (mem_mapDelete _ _ _ he)
        · exact RCOk_decAll hrc prev
        · intro j
          show rcGet (decAll st.refCountById prev) j =
            (mapDelete st.refsByFile key).countP (fun e => e.2.contains j)
          rw [rcGet_decAll _ prev hprevnd j, hcount j]
          have hdec := countP_mapDelete_of_get (fun e => e.2.contains j)
            st.refsByFile key prev hk hp
          simp only [] at hdec
          have halign : (if prev.contains j then (1 : Nat) else 0) =
              if j ∈ prev then 1 else 0 := ite_contains_eq prev j
          unfold unitCount
          omega
      · rw [replaceFileRefs_set_some st key prev ids hp hsame' hnil]
        refine ⟨?_, ?_, ?_, ?_⟩
        · show ((mapSet st.refsByFile key ids).map (fun e => e.1)).Nodup
          rw [keys_mapSet_present _ _ _ (by rw [hp]; rfl)]
          exact hk
        · intro e he
          rcases mem_mapSet _ _ _ e he with he1 | he1
          · rw [he1]
            exact hids
          · exact hsets e he1
        · exact RCOk_incAll (RCOk_decAll hrc prev) ids
        · intro j
          show rcGet (incAll (decAll st.refCountById prev) ids) j =
            (mapSet st.refsByFile key ids).countP (fun e => e.2.contains j)
          rw [rcGet_incAll _ ids hids j, rcGet_decAll _ prev hprevnd j,
            hcount j]
          have hset := countP_mapSet_of_get (fun e => e.2.contains j)
            st.refsByFile key prev ids hk hp
          simp only [] at hset
          have hpos : (if j ∈ prev then (1 : Nat) else 0) ≤ unitCount st j := by
            by_cases hj : j ∈ prev
            · simp only [hj, if_true]
              unfold unitCount
              refine List.countP_pos_iff.mpr ⟨(key, prev), hprevmem, ?_⟩
              simpa [List.contains, List.elem_iff] using hj
            · simp [hj]
          have halign1 : (if prev.contains j then (1 : Nat) else 0) =
              if j ∈ prev then 1 else 0 := ite_contains_eq prev j
          have halign2 : (if ids.contains j then (1 : Nat) else 0) =
              if j ∈ ids then 1 else 0 := ite_contains_eq ids j
          unfold unitCount at *
          omega

theorem StoreInv_init (dirs : List (String × String)) :
    StoreInv (initState dirs) := by
  refine ⟨by simp [initState], by simp [initState],
    ⟨by simp [initState], by simp [initState]⟩, ?_⟩
  intro j
  simp [rcGet, unitCount, initState, mapGet]

/-- a build generation seen by the reference store: the `buildStart` reset
followed by any sequence of `replaceFileRefs` calls. -/
def runReplaces (dirs : List (String × String))
    (ops : List (String × List IconId)) : PluginState :=
  ops.foldl (fun s op => replaceFileRefs s op.1 op.2) (initState dirs)

theorem runReplaces_StoreInv (dirs : List (String × String))
    (ops : List (String × List IconId)) (h : ∀ op ∈ ops, op.2.Nodup) :
    StoreInv (runReplaces dirs ops) := by
  unfold runReplaces
  have hgen : ∀ (l : List (String × List IconId)) (st : PluginState),
      StoreInv st → (∀ op ∈ l, op.2.Nodup) →
      StoreInv (l.foldl (fun s op => replaceFileRefs s op.1 op.2) st) := by
    intro l
    induction l with
    | nil => intro st hst _; exact hst
    | cons op rest ih =>
      intro st hst hl
      exact ih _
        (replaceFileRefs_StoreInv hst op.1 op.2 (hl op (List.mem_cons_self _ _)))
        (fun o ho => hl o (List.mem_cons_of_mem _ ho))
  exact hgen ops _ (StoreInv_init dirs) h

/-- C3: after any sequence of `replaceFileRefs` calls (with genuine sets as
arguments), `refCountById` maps each id to exactly the number of stored
source units whose set contains it, holds no zero entry, and an id no unit
references any more is absent from the sorted active-id list that the next
`getSprite` iterates. -/
theorem refCount_matches_unit_count (dirs : List (String × String))
    (ops : List (String × List IconId)) (h : ∀ op ∈ ops, op.2.Nodup) :
    (∀ iconId, rcGet (runReplaces dirs ops).refCountById iconId =
      unitCount (runReplaces dirs ops) iconId) ∧
    (∀ e ∈ (runReplaces dirs ops).refCountById, 0 < e.2) ∧
    (∀ iconId, unitCount (runReplaces dirs ops) iconId = 0 →
      iconId ∉ activeIdsSorted (runReplaces dirs ops)) := by
  obtain ⟨hk, hsets, hrc, hcount⟩ := runReplaces_StoreInv dirs ops h
  refine ⟨hcount, hrc.2, ?_⟩
  intro j hz hmem
  have h0 : rcGet (runReplaces dirs ops).refCountById j = 0 := by
    rw [hcount j, hz]
  have hnone : mapGet (runReplaces dirs ops).refCountById j = none := by
    cases hg : mapGet (runReplaces dirs ops).refCountById j with
    | none => rfl
    | some v =>
      have hv := hrc.2 _ (mapGet_mem _ _ _ hg)
      rw [rcGet, hg] at h0
      simp only [Option.getD_some] at h0
      omega
  have hjmem : j ∈ (runReplaces dirs ops).refCountById.map (fun e => e.1) := by
    have hperm := List.perm_insertionSort jsStrLe
      ((runReplaces dirs ops).refCountById.map (fun e => e.1))
    exact hperm.mem_iff.mp hmem
  exact (mapGet_eq_none_iff _ j).mp hnone hjmem

/-- the ops of the witness: `b/x` gains a reference, then loses its last
one. -/
def c3Ops : List (String × List IconId) :=
  [("u1", ["b/x", "a/y"]), ("u2", ["a/y"]), ("u1", [])]

/-- Witness for C3 at a concrete run in which the last unit referencing
`b/x` is removed. -/
theorem refCount_matches_unit_count_witness :
    rcGet (runReplaces [] c3Ops).refCountById "a/y" =
      unitCount (runReplaces [] c3Ops) "a/y" ∧
    "b/x" ∉ activeIdsSorted (runReplaces [] c3Ops) :=
  ⟨(refCount_matches_unit_count [] c3Ops (by decide)).1 "a/y",
   (refCount_matches_unit_count [] c3Ops (by decide)).2.2 "b/x" (by decide)⟩

/-! ## Claim C9: no coalescing of concurrent same-id resolutions

`loadSymbol` keeps no in-flight request table: the only cache is
`symbolById`, which is written **after** the read completes.  Two
resolutions of the same uncached id whose synchronous preludes both run
before either read completes therefore both issue a read. -/

theorem asyncStep_warnInv {st : AsyncState} (h : WarnInv st.core) (fs : FS)
    (ev : AsyncEv) : WarnInv (asyncStep fs st ev).core := by
  cases ev with
  | start tag iconId =>
    simp only [asyncStep]
    split
    · next st1 r heq =>
      have h1 := loadSymbolStart_warnInv h iconId
      rw [heq] at h1
      exact h1
    · next st1 p heq =>
      have h1 := loadSymbolStart_warnInv h iconId
      rw [heq] at h1
      exact h1
  | finish tag =>
    simp only [asyncStep]
    split
    · exact h
    · exact loadSymbolFinish_warnInv h fs _ _

theorem asyncRun_warnInv (fs : FS) (dirs : List (String × String))
    (evs : List AsyncEv) : WarnInv (asyncRun fs (initAsync dirs) evs).core := by
  unfold asyncRun
  have hgen : ∀ (l : List AsyncEv) (st : AsyncState), WarnInv st.core →
      WarnInv (l.foldl (asyncStep fs) st).core := by
    intro l
    induction l with
    | nil => intro st h; exact h
    | cons ev rest ih => intro st h; exact ih _ (asyncStep_warnInv h fs ev)
  exact hgen evs _ (warnInv_init dirs)

/-- Two requests for the same uncached id `foo/x` that both start before
either read is delivered, then both complete. -/
def c9Evs : List AsyncEv :=
  [.start 0 "foo/x", .start 1 "foo/x", .finish 0, .finish 1]

/-- C9 counterexample: with two concurrent requesters of the same
not-yet-cached id, the code performs **two** `fs.readFile` attempts — not
at most one as the claim requires — because no in-flight load is shared. -/
theorem concurrent_same_id_two_reads :
    ¬ ((asyncRun fsNone (initAsync [("foo", "icons")]) c9Evs).core.reads.length
        ≤ 1) ∧
    (asyncRun fsNone (initAsync [("foo", "icons")]) c9Evs).core.reads =
      ["icons/x.svg", "icons/x.svg"] := by
  decide

def svgFooX : String := "<svg viewBox=\"0 0 24 24\"><path d=\"M0\"/></svg>"

def fsFooX : FS := fun p => if p == "icons/x.svg" then some svgFooX else none

/-- C9 amended: the loader has no in-flight coalescing — each resolution
request for a not-yet-cached id issues its own file read (two overlapping
requesters of the same id cause two reads), while the warned set still
bounds diagnostics to at most one per id under every interleaving; only a
request that starts after a successful resolution has completed is served
from `symbolById` without I/O (a second sequential resolve causes no
second read). -/
theorem loader_no_coalescing_amended (fs : FS)
    (dirs : List (String × String)) (evs : List AsyncEv) (iconId : IconId) :
    ((asyncRun fs (initAsync dirs) evs).core.warnings.countP
      (fun w => w.1 == iconId)) ≤ 1 ∧
    (asyncRun fsNone (initAsync [("foo", "icons")]) c9Evs).core.reads.length
      = 2 ∧
    (asyncRun fsNone (initAsync [("foo", "icons")]) c9Evs).core.warnings.length
      = 1 ∧
    (loadSymbol fsFooX
      ((loadSymbol fsFooX (initState [("foo", "icons")]) "foo/x").1)
      "foo/x").1.reads.length = 1 := by
  refine ⟨?_, by decide, by decide, by decide⟩
  have h := asyncRun_warnInv fs dirs evs
  have hmap : (asyncRun fs (initAsync dirs) evs).core.warnings.countP
      (fun w => w.1 == iconId) =
      ((asyncRun fs (initAsync dirs) evs).core.warnings.map
        (fun w => w.1)).countP (fun x => x == iconId) := by
    rw [List.countP_map]
    rfl
  rw [hmap, h.1]
  exact List.nodup_iff_count_le_one.mp h.2 iconId

/-! ## Claim C2: what the extractor can return

The shape every extracted token provably has: a configured prefix matched
up to ASCII letter case, a slash, and a nonempty run of `[a-zA-Z0-9-]`
characters. -/

def IdShape (ps : List String) (l : List Char) : Prop :=
  ∃ q ∈ ps, ∃ con name : List Char,
    l = con ++ '/' :: name ∧
    List.Forall₂ (fun a b => ciCharEq a b = true) q.data con ∧
    name ≠ [] ∧ ∀ c ∈ name, isNameCharCI c = true

theorem IdShape_cons {ps : List String} {p : String} {l : List Char}
    (h : IdShape ps l) : IdShape (p :: ps) l := by
  obtain ⟨q, hq, con, name, h1, h2, h3, h4⟩ := h
  exact ⟨q, List.mem_cons_of_mem _ hq, con, name, h1, h2, h3, h4⟩

theorem ciStripPfx_sound : ∀ (p s con r : List Char),
    ciStripPfx p s = some (con, r) →
    s = con ++ r ∧ List.Forall₂ (fun a b => ciCharEq a b = true) p con
  | [], s, con, r, h => by
    simp only [ciStripPfx] at h
    cases h
    exact ⟨rfl, List.Forall₂.nil⟩
  | p :: ps, [], con, r, h => by simp [ciStripPfx] at h
  | p :: ps, c :: cs, con, r, h => by
    simp only [ciStripPfx] at h
    by_cases hc : ciCharEq p c = true
    · rw [if_pos hc] at h
      cases hrec : ciStripPfx ps cs with
      | none => rw [hrec] at h; simp at h
      | some pr =>
        obtain ⟨con', r'⟩ := pr
        rw [hrec] at h
        cases h
        have ih := ciStripPfx_sound ps cs con' r' hrec
        refine ⟨?_, List.Forall₂.cons hc ih.2⟩
        rw [List.cons_append, ← ih.1]
    · rw [if_neg hc] at h
      simp at h

theorem matchSlashName_sound (s : List Char) (close : List Char → Bool)
    (name after : List Char)
    (h : matchSlashName s close = some (name, after)) :
    name ≠ [] ∧ ∀ c ∈ name, isNameCharCI c = true := by
  simp only [matchSlashName] at h
  split at h
  · split at h
    · simp at h
    · next hemp =>
      split at h
      · cases h
        refine ⟨?_, fun c hc => List.mem_takeWhile_imp hc⟩
        intro hnil
        rw [hnil] at hemp
        simp at hemp
      · simp at h
  · simp at h

theorem tryPrefixes_sound : ∀ (ps : List String) (s : List Char)
    (close : List Char → Bool) (id after : List Char),
    tryPrefixes ps s close = some (id, after) → IdShape ps id
  | [], s, close, id, after, h => by simp [tryPrefixes] at h
  | p :: rest, s, close, id, after, h => by
    simp only [tryPrefixes] at h
    split at h
    · next pr heq =>
      split at h
      · next r heq2 =>
        cases h
        have hs := ciStripPfx_sound p.data s pr.1 pr.2 heq
        have hn := matchSlashName_sound pr.2 close r.1 r.2 heq2
        exact ⟨p, List.mem_cons_self _ _, pr.1, r.1, rfl, hs.2, hn.1, hn.2⟩
      · exact IdShape_cons (tryPrefixes_sound rest s close id after h)
    · exact IdShape_cons (tryPrefixes_sound rest s close id after h)

theorem matchAfterEq_sound (ps : List String) (r4 : List Char)
    (id : List Char) (lc : Char) (rest : List Char)
    (h : matchAfterEq ps r4 = some (id, lc, rest)) : IdShape ps id := by
  simp only [matchAfterEq] at h
  split at h
  · simp at h
  · split at h
    · split at h
      · split at h
        · next heq =>
          split at h
          · cases h
            exact tryPrefixes_sound _ _ _ _ _ heq
          · simp at h
        · simp at h
      · simp at h
    · split at h
      · split at h
        · next heq =>
          cases h
          exact tryPrefixes_sound _ _ _ _ _ heq
        · simp at h
      · simp at h

theorem matchHrefAt_sound (ps : List String) (prev : Option Char)
    (s : List Char) (id : List Char) (lc : Char) (rest : List Char)
    (h : matchHrefAt ps prev s = some (id, lc, rest)) : IdShape ps id := by
  simp only [matchHrefAt] at h
  split at h
  · simp at h
  · split at h
    · simp at h
    · exact matchAfterEq_sound ps _ id lc rest h

theorem scanHref_sound (ps : List String) : ∀ (fuel : Nat)
    (prev : Option Char) (s : List Char) (id : List Char),
    id ∈ scanHref ps fuel prev s → IdShape ps id := by
  intro fuel
  induction fuel with
  | zero => intro prev s id h; simp [scanHref] at h
  | succ n ih =>
    intro prev s id h
    cases s with
    | nil => simp [scanHref] at h
    | cons c cs =>
      simp only [scanHref] at h
      split at h
      · rename_i id0 lastC rest2 heq
        rcases List.mem_cons.mp h with h1 | h1
        · rw [h1]
          exact matchHrefAt_sound ps prev (c :: cs) id0 lastC rest2 heq
        · exact ih _ _ _ h1
      · exact ih _ _ _ h

theorem dedupKeepFirst_subset (xs : List String) (y : String)
    (h : y ∈ dedupKeepFirst xs) : y ∈ xs := by
  unfold dedupKeepFirst at h
  have hgen : ∀ (l acc : List String),
      y ∈ l.foldl
        (fun acc x => if acc.contains x then acc else acc ++ [x]) acc →
      y ∈ acc ∨ y ∈ l := by
    intro l
    induction l with
    | nil => intro acc hy; exact Or.inl hy
    | cons x t ih =>
      intro acc hy
      rcases ih _ hy with h1 | h1
      · simp only [] at h1
        by_cases hc : acc.contains x = true
        · rw [if_pos hc] at h1
          exact Or.inl h1
        · rw [if_neg hc] at h1
          rcases List.mem_append.mp h1 with h2 | h2
          · exact Or.inl h2
          · simp at h2
            exact Or.inr (h2 ▸ List.mem_cons_self _ _)
      · exact Or.inr (List.mem_cons_of_mem _ h1)
  rcases hgen xs [] h with h1 | h1
  · simp at h1
  · exact h1

/-- C2 counterexample: the href regex is built with the `i` flag (line 69),
so extraction is **not** case-sensitive.  `href="#foo/A"` — whose name
segment contains an upper-case letter outside `[a-z0-9-]` — is extracted,
and when the (case-sensitive) `#prefix/` needle pre-filter is satisfied
elsewhere in the content, a token whose prefix differs from the configured
`foo` only by letter case is extracted as well. -/
theorem extract_not_case_sensitive :
    extractIconIds "<use href=\"#foo/A\"></use>" ["foo"] = ["foo/A"] ∧
    extractIconIds "#foo/ <use href=\"#FOO/a\"></use>" ["foo"] = ["FOO/a"] := by
  constructor <;> decide

/-- C2 amended: extraction is anchored to the configured prefixes and the
`[a-z0-9-]` name class only up to ASCII letter case — every extracted token
is a configured prefix matched case-insensitively, a slash, and a nonempty
run of `[a-zA-Z0-9-]` characters; nothing else is ever returned. -/
theorem extract_shape_case_insensitive (content : String)
    (prefixes : List String) (id : String)
    (h : id ∈ extractIconIds content prefixes) :
    ∃ q ∈ prefixes, ∃ con name : List Char,
      id.data = con ++ '/' :: name ∧
      List.Forall₂ (fun a b => ciCharEq a b = true) q.data con ∧
      name ≠ [] ∧ ∀ c ∈ name, isNameCharCI c = true := by
  simp only [extractIconIds] at h
  split at h
  · simp at h
  · split at h
    · simp at h
    · split at h
      · simp at h
      · have h1 := dedupKeepFirst_subset _ _ h
        rcases List.mem_map.mp h1 with ⟨l, hl, hlid⟩
        have hsh := scanHref_sound (prefixes.filter (fun p => !(p == "")))
          content.data.length none content.data l hl
        obtain ⟨q, hq, con, name, hsplit, hci, hne, hnm⟩ := hsh
        refine ⟨q, List.mem_of_mem_filter hq, con, name, ?_, hci, hne, hnm⟩
        rw [← hlid]
        exact hsplit

/-- Witness for the amended C2 on an exact-case reference. -/
theorem extract_shape_case_insensitive_witness :
    ∃ q ∈ ["foo"], ∃ con name : List Char,
      ("foo/check" : String).data = con ++ '/' :: name ∧
      List.Forall₂ (fun a b => ciCharEq a b = true) q.data con ∧
      name ≠ [] ∧ ∀ c ∈ name, isNameCharCI c = true :=
  extract_shape_case_insensitive "<use href=\"#foo/check\"></use>" ["foo"]
    "foo/check" (by decide)

end Heroicons
